import Mathlib

/-!
Verification of the metro_system repository core: station graph and BFS
route search (src/metro/views.py, src/metro/models.py), fare computation
(src/metro/views.py, src/main.py), and the ticket scan state machine
(src/tickets/models.py, src/tickets/views.py).

The Django ORM rows are embedded as plain Lean structures; a `Db` value is
one snapshot of the database tables.  Queryset operations become list
operations on that snapshot.  Times are modelled as natural numbers in the
same unit as the TICKET_EXPIRY_HOURS setting; the settings constants
(TICKET_BASE_FARE, TICKET_PER_STATION_FARE, TICKET_EXPIRY_HOURS), whose
settings module is not part of the sources, are passed as parameters.
-/

namespace MetroSys

/-- Embeds metro.models.MetroLine (the fields the core reads). -/
structure MetroLine where
  lineId : Nat
  is_active : Bool
  ticket_booking_enabled : Bool
deriving DecidableEq, Repr

/-- Embeds metro.models.Station (the fields the core reads).  `position` is
an IntegerField; `lineId` is the foreign key to MetroLine. -/
structure Station where
  sid : Nat
  lineId : Nat
  position : Int
  is_interchange : Bool
  is_active : Bool
deriving DecidableEq, Repr

/-- The connection_type choices of metro.models.StationConnection. -/
inductive ConnType where
  | normal : ConnType
  | interchange : ConnType
deriving DecidableEq, Repr

/-- Embeds metro.models.StationConnection: a directed edge row. -/
structure StationConnection where
  from_station : Nat
  to_station : Nat
  connection_type : ConnType
deriving DecidableEq, Repr

/-- One snapshot of the station tables, as the graph-building code reads
them.  `stations` is in the queryset's order (Meta ordering line, position);
`connections` is in recorded order. -/
structure Db where
  lines : List MetroLine
  stations : List Station
  connections : List StationConnection
deriving Repr

/-- Embeds Station.get_next_station: the first active station of the same
line at position+1 (unique_together makes it unique in a real database). -/
def get_next_station (db : Db) (s : Station) : Option Station :=
  (db.stations.filter fun t =>
    t.lineId = s.lineId ∧ t.position = s.position + 1 ∧ t.is_active = true).head?

/-- Embeds Station.get_previous_station: the first active station of the
same line at position-1. -/
def get_previous_station (db : Db) (s : Station) : Option Station :=
  (db.stations.filter fun t =>
    t.lineId = s.lineId ∧ t.position = s.position - 1 ∧ t.is_active = true).head?

/-- The to_station ids of the interchange connections whose from_station is
`s`, in recorded order (the queryset in find_shortest_path). -/
def interchangeTargets (db : Db) (s : Station) : List Nat :=
  (db.connections.filter fun c =>
    c.from_station = s.sid ∧ c.connection_type = ConnType.interchange).map
    (fun c => c.to_station)

/-- The neighbor list find_shortest_path builds for one station: next on
the line, then previous, then each interchange target not already present
(the membership test of the source loop). -/
def stationNeighbors (db : Db) (s : Station) : List Nat :=
  let nextPart : List Nat :=
    match get_next_station db s with
    | some n => [n.sid]
    | none => []
  let prevPart : List Nat :=
    match get_previous_station db s with
    | some p => [p.sid]
    | none => []
  (interchangeTargets db s).foldl
    (fun acc t => if t ∈ acc then acc else acc ++ [t]) (nextPart ++ prevPart)

/-- The adjacency dictionary of find_shortest_path: one entry per active
station (primary keys are unique, so the association list is a faithful
rendering of the Python dict). -/
def adjacency (db : Db) : List (Nat × List Nat) :=
  (db.stations.filter fun s => s.is_active = true).map
    (fun s => (s.sid, stationNeighbors db s))

/-- Association-list lookup, rendering `adjacency.get(current, [])`. -/
def dictGet : List (Nat × List Nat) → Nat → List Nat
  | [], _ => []
  | kv :: rest, i => if kv.1 = i then kv.2 else dictGet rest i

/-- `adjacency.get(station, [])` over the snapshot's adjacency dict. -/
def adjGet (db : Db) (i : Nat) : List Nat :=
  dictGet (adjacency db) i

/-- The BFS loop of find_shortest_path: queue of paths (current station is
the last element), popped from the left; a dequeued path ending at the
destination is returned before the visited check; expanding a station marks
it visited and enqueues path+[neighbor] for each unvisited neighbor in
adjacency order.  The Python while-loop always terminates (each iteration
either shrinks the queue or visits a new station); 'fuel' is a structural
bound on the iteration count, proved never to run out when the loop is
started with `bfsFuel`. -/
def bfsLoop (adjF : Nat → List Nat) (dest : Nat) :
    Nat → List (List Nat) → List Nat → Option (List Nat)
  | _, [], _ => none
  | 0, _ :: _, _ => none
  | fuel + 1, path :: queue, visited =>
    let current := path.getLastD 0
    if current = dest then some path
    else if current ∈ visited then
      bfsLoop adjF dest fuel queue visited
    else
      bfsLoop adjF dest fuel
        (queue ++ ((adjF current).filter
          (fun n => decide (n ∉ current :: visited))).map (fun n => path ++ [n]))
        (current :: visited)

/-- Iteration-count potential of the not-yet-visited part of the adjacency
dict: visiting a key spends its entry, popping a path spends a queue slot. -/
def potentialOf (l : List (Nat × List Nat)) (visited : List Nat) : Nat :=
  ((l.filter fun kv => decide (kv.1 ∉ visited)).map
    (fun kv => kv.2.length + 1)).sum

/-- Fuel sufficient for the whole BFS run (proved below). -/
def bfsFuel (db : Db) : Nat :=
  potentialOf (adjacency db) [] + 1

/-- Embeds find_shortest_path of src/metro/views.py, on station ids: the
origin == destination check first, then BFS over the adjacency dict built
from the active stations. -/
def find_shortest_path (db : Db) (origin destination : Nat) :
    Option (List Nat) :=
  if origin = destination then some [origin]
  else bfsLoop (adjGet db) destination (bfsFuel db) [[origin]] []

/-- Embeds calculate_fare of src/metro/views.py (and the identical
MetroSystem.calculate_fare of src/main.py): zero for fewer than two
stations, otherwise base + (len-1) * perStation.  The source constants are
TICKET_BASE_FARE / TICKET_PER_STATION_FARE (main.py: BASE_FARE = 10,
PER_STATION_FARE = 5). -/
def calculate_fare (base perStation : Nat) (path : List Nat) : Nat :=
  if path.isEmpty ∨ path.length < 2 then 0
  else base + (path.length - 1) * perStation

/-- The BASE_FARE constant of MetroSystem in src/main.py. -/
def BASE_FARE : Nat := 10

/-- The PER_STATION_FARE constant of MetroSystem in src/main.py. -/
def PER_STATION_FARE : Nat := 5

/-- A list of station ids in which every consecutive pair is an adjacency
step of `adjF`. -/
def isChain (adjF : Nat → List Nat) : List Nat → Bool
  | [] => true
  | [_] => true
  | a :: b :: rest => decide (b ∈ adjF a) && isChain adjF (b :: rest)

/-- A walk from `o` to `d` respecting the adjacency rules: nonempty, starts
at `o`, ends at `d`, consecutive stations adjacent. -/
def IsWalkFromTo (adjF : Nat → List Nat) (o d : Nat) (w : List Nat) : Prop :=
  w.head? = some o ∧ w.getLast? = some d ∧ isChain adjF w = true

instance (adjF : Nat → List Nat) (o d : Nat) (w : List Nat) :
    Decidable (IsWalkFromTo adjF o d w) := by
  unfold IsWalkFromTo
  infer_instance

/-- The STATUS_CHOICES of tickets.models.Ticket. -/
inductive TStatus where
  | active : TStatus
  | in_use : TStatus
  | used : TStatus
  | expired : TStatus
deriving DecidableEq, Repr

/-- Embeds tickets.models.Ticket (the fields the scan logic reads or
writes).  `origin` and `destination` are station ids; times are in the
same unit as the expiry-hours setting. -/
structure Ticket where
  ticket_id : Nat
  origin : Nat
  destination : Nat
  price : Nat
  status : TStatus
  purchased_at : Nat
  entry_time : Option Nat
  exit_time : Option Nat
deriving DecidableEq, Repr

/-- Embeds metro.models.DailyFootfall: the (station, date) counter row. -/
structure DailyFootfall where
  station : Nat
  date : Nat
  entry_count : Nat
  exit_count : Nat
deriving DecidableEq, Repr

/-- DailyFootfall.total_footfall. -/
def total_footfall (r : DailyFootfall) : Nat :=
  r.entry_count + r.exit_count

/-- DailyFootfall.record_entry (the in-row increment before save). -/
def record_entry (r : DailyFootfall) : DailyFootfall :=
  { r with entry_count := r.entry_count + 1 }

/-- DailyFootfall.record_exit. -/
def record_exit (r : DailyFootfall) : DailyFootfall :=
  { r with exit_count := r.exit_count + 1 }

/-- DailyFootfall.objects.get_or_create keyed by (station, date): the
existing first match, or a fresh row with zero counters appended. -/
def get_or_create (fs : List DailyFootfall) (station date : Nat) :
    List DailyFootfall × DailyFootfall :=
  match fs.find? (fun r => r.station = station ∧ r.date = date) with
  | some r => (fs, r)
  | none =>
    let r : DailyFootfall :=
      { station := station, date := date, entry_count := 0, exit_count := 0 }
    (fs ++ [r], r)

/-- Saving a footfall row: the row with its (station, date) key is
overwritten (the key is unique_together in the database). -/
def saveFootfall (fs : List DailyFootfall) (r : DailyFootfall) :
    List DailyFootfall :=
  fs.map fun x => if x.station = r.station ∧ x.date = r.date then r else x

/-- The footfall side effect of a successful entry scan: get_or_create
then record_entry (tickets.models.Ticket.scan_entry, lines 68-73). -/
def footfallRecordEntry (fs : List DailyFootfall) (station date : Nat) :
    List DailyFootfall :=
  let gc := get_or_create fs station date
  saveFootfall gc.1 (record_entry gc.2)

/-- The footfall side effect of a successful exit scan. -/
def footfallRecordExit (fs : List DailyFootfall) (station date : Nat) :
    List DailyFootfall :=
  let gc := get_or_create fs station date
  saveFootfall gc.1 (record_exit gc.2)

/-- Entry counter read-back for a (station, date) key, zero if absent. -/
def entryCountOf (fs : List DailyFootfall) (station date : Nat) : Nat :=
  match fs.find? (fun r => r.station = station ∧ r.date = date) with
  | some r => r.entry_count
  | none => 0

/-- Exit counter read-back for a (station, date) key, zero if absent. -/
def exitCountOf (fs : List DailyFootfall) (station date : Nat) : Nat :=
  match fs.find? (fun r => r.station = station ∧ r.date = date) with
  | some r => r.exit_count
  | none => 0

/-- The human-readable messages of the scan methods, as symbolic values
(the literal strings carry no further logic). -/
inductive ScanMsg where
  | ticketIs (s : TStatus) : ScanMsg
  | hasExpired : ScanMsg
  | invalidEntryStation (originSid : Nat) : ScanMsg
  | invalidExitStation (destSid : Nat) : ScanMsg
  | entrySuccessful : ScanMsg
  | exitSuccessful : ScanMsg
deriving DecidableEq, Repr

/-- Ticket.is_expired: now is strictly past purchased_at plus the
TICKET_EXPIRY_HOURS setting. -/
def is_expired (expiryHours : Nat) (t : Ticket) (now : Nat) : Bool :=
  decide (t.purchased_at + expiryHours < now)

/-- Embeds Ticket.check_and_update_expiry: an active ticket past its
expiry time is written to expired; the returned flag is the method's
result. -/
def check_and_update_expiry (expiryHours : Nat) (t : Ticket) (now : Nat) :
    Ticket × Bool :=
  if t.status = TStatus.active ∧ is_expired expiryHours t now = true then
    ({ t with status := TStatus.expired }, true)
  else (t, false)

/-- Embeds Ticket.scan_entry: status guard, then expiry, then origin
guard; on success the ticket becomes in_use with entry_time set and the
origin station's daily entry counter is incremented. -/
def scan_entry (expiryHours : Nat) (t : Ticket) (fs : List DailyFootfall)
    (station now today : Nat) :
    Ticket × List DailyFootfall × Bool × ScanMsg :=
  if t.status ≠ TStatus.active then
    (t, fs, false, ScanMsg.ticketIs t.status)
  else if is_expired expiryHours t now then
    ({ t with status := TStatus.expired }, fs, false, ScanMsg.hasExpired)
  else if station ≠ t.origin then
    (t, fs, false, ScanMsg.invalidEntryStation t.origin)
  else
    ({ t with status := TStatus.in_use, entry_time := some now },
      footfallRecordEntry fs station today, true, ScanMsg.entrySuccessful)

/-- Embeds Ticket.scan_exit: status guard then destination guard; on
success the ticket becomes used with exit_time set and the destination
station's daily exit counter is incremented. -/
def scan_exit (t : Ticket) (fs : List DailyFootfall)
    (station now today : Nat) :
    Ticket × List DailyFootfall × Bool × ScanMsg :=
  if t.status ≠ TStatus.in_use then
    (t, fs, false, ScanMsg.ticketIs t.status)
  else if station ≠ t.destination then
    (t, fs, false, ScanMsg.invalidExitStation t.destination)
  else
    ({ t with status := TStatus.used, exit_time := some now },
      footfallRecordExit fs station today, true, ScanMsg.exitSuccessful)

/-- The scan_type choices of the scan form and TicketScan. -/
inductive ScanKind where
  | entry : ScanKind
  | exit : ScanKind
deriving DecidableEq, Repr

/-- Embeds tickets.models.TicketScan: the append-only audit row. -/
structure TicketScan where
  ticket_id : Nat
  station : Nat
  scan_type : ScanKind
  scanned_by : Nat
  success : Bool
  message : ScanMsg
deriving DecidableEq, Repr

/-- The mutable stores the scan view touches: ticket rows, audit rows,
footfall rows. -/
structure ScanState where
  tickets : List Ticket
  scans : List TicketScan
  footfall : List DailyFootfall
deriving DecidableEq, Repr

/-- Ticket.objects.get(ticket_id=...): first row with the id (the id is
unique). -/
def findTicket (ts : List Ticket) (tid : Nat) : Option Ticket :=
  ts.find? fun t => t.ticket_id = tid

/-- ticket.save(): the row with this ticket_id is overwritten. -/
def saveTicket (ts : List Ticket) (t : Ticket) : List Ticket :=
  ts.map fun u => if u.ticket_id = t.ticket_id then t else u

/-- Embeds the scan_ticket view of src/tickets/views.py: look the ticket
up (an unknown id is reported without any audit row), dispatch on the
scan type, then unconditionally append exactly one TicketScan row with
the outcome. -/
def scan_ticket (expiryHours : Nat) (st : ScanState) (tid station : Nat)
    (kind : ScanKind) (operator now today : Nat) :
    ScanState × Option (Bool × ScanMsg) :=
  match findTicket st.tickets tid with
  | none => (st, none)
  | some t =>
    let r :=
      match kind with
      | ScanKind.entry => scan_entry expiryHours t st.footfall station now today
      | ScanKind.exit => scan_exit t st.footfall station now today
    let row : TicketScan :=
      { ticket_id := tid, station := station, scan_type := kind,
        scanned_by := operator, success := r.2.2.1, message := r.2.2.2 }
    ({ tickets := saveTicket st.tickets r.1,
       scans := st.scans ++ [row],
       footfall := r.2.1 }, some (r.2.2.1, r.2.2.2))

/-- One ticket-lifecycle event: an entry scan, an exit scan, or a lazy
expiry evaluation (check_and_update_expiry). -/
inductive ScanEvent where
  | entryScan (station now today : Nat) : ScanEvent
  | exitScan (station now today : Nat) : ScanEvent
  | expiryCheck (now : Nat) : ScanEvent
deriving DecidableEq, Repr

/-- Applying one event to a ticket and the footfall store. -/
def applyEvent (expiryHours : Nat) (st : Ticket × List DailyFootfall)
    (e : ScanEvent) : Ticket × List DailyFootfall :=
  match e with
  | ScanEvent.entryScan station now today =>
    let r := scan_entry expiryHours st.1 st.2 station now today
    (r.1, r.2.1)
  | ScanEvent.exitScan station now today =>
    let r := scan_exit st.1 st.2 station now today
    (r.1, r.2.1)
  | ScanEvent.expiryCheck now =>
    ((check_and_update_expiry expiryHours st.1 now).1, st.2)

/-- A whole sequence of lifecycle events. -/
def runEvents (expiryHours : Nat) (st : Ticket × List DailyFootfall)
    (es : List ScanEvent) : Ticket × List DailyFootfall :=
  es.foldl (applyEvent expiryHours) st

/-- The successive ticket statuses along a sequence of events, starting
with the current status. -/
def statusTrace (expiryHours : Nat) (st : Ticket × List DailyFootfall) :
    List ScanEvent → List TStatus
  | [] => [st.1.status]
  | e :: es => st.1.status :: statusTrace expiryHours (applyEvent expiryHours st e) es

/-- The status transitions the specification allows: stay put, or move
along active to in_use to used, with expiry from active or in_use. -/
def statusEdgeOk (a b : TStatus) : Prop :=
  a = b ∨ (a = TStatus.active ∧ b = TStatus.in_use) ∨
    (a = TStatus.in_use ∧ b = TStatus.used) ∨
    ((a = TStatus.active ∨ a = TStatus.in_use) ∧ b = TStatus.expired)

/-- Two exit-scan requests against the same ticket where both handlers
fetch the ticket row before either saves (the scan_ticket view takes no
row lock and opens no transaction, so this interleaving is possible):
handler one runs on the fetched ticket and commits, handler two runs on
its own stale fetch of the same row and commits after it.  Returns the
final state and both handlers' (success, message) results. -/
def concurrentExitScans (st : ScanState)
    (tid station op1 op2 now today : Nat) :
    ScanState × Option ((Bool × ScanMsg) × (Bool × ScanMsg)) :=
  match findTicket st.tickets tid with
  | none => (st, none)
  | some t0 =>
    let r1 := scan_exit t0 st.footfall station now today
    let row1 : TicketScan :=
      { ticket_id := tid, station := station, scan_type := ScanKind.exit,
        scanned_by := op1, success := r1.2.2.1, message := r1.2.2.2 }
    let st1 : ScanState :=
      { tickets := saveTicket st.tickets r1.1,
        scans := st.scans ++ [row1], footfall := r1.2.1 }
    let r2 := scan_exit t0 st1.footfall station now today
    let row2 : TicketScan :=
      { ticket_id := tid, station := station, scan_type := ScanKind.exit,
        scanned_by := op2, success := r2.2.2.1, message := r2.2.2.2 }
    ({ tickets := saveTicket st1.tickets r2.1,
       scans := st1.scans ++ [row2], footfall := r2.2.1 },
      some ((r1.2.2.1, r1.2.2.2), (r2.2.2.1, r2.2.2.2)))

/-! Helper lemmas. -/

theorem mem_of_head?_eq_some {α : Type} {l : List α} {a : α}
    (h : l.head? = some a) : a ∈ l := by
  cases l with
  | nil => simp at h
  | cons b t =>
    simp only [List.head?_cons, Option.some.injEq] at h
    subst h
    exact List.mem_cons_self _ _

theorem dictGet_eq_nil_of_forall (l : List (Nat × List Nat)) (i : Nat)
    (h : ∀ kv ∈ l, kv.1 ≠ i) : dictGet l i = [] := by
  induction l with
  | nil => rfl
  | cons kv rest ih =>
    have h1 : kv.1 ≠ i := h kv (List.mem_cons_self kv rest)
    simp only [dictGet, if_neg h1]
    exact ih fun x hx => h x (List.mem_cons_of_mem kv hx)

theorem adjGet_eq_nil_of_inactive (db : Db) (i : Nat)
    (h : ∀ s ∈ db.stations, s.is_active = true → s.sid ≠ i) :
    adjGet db i = [] := by
  apply dictGet_eq_nil_of_forall
  intro kv hkv
  simp only [adjacency, List.mem_map, List.mem_filter] at hkv
  obtain ⟨s, ⟨hsmem, hsact⟩, hkveq⟩ := hkv
  have : kv.1 = s.sid := by rw [← hkveq]
  rw [this]
  exact h s hsmem (by simpa using hsact)

theorem mem_foldl_dedup (l : List Nat) :
    ∀ (acc : List Nat) (x : Nat),
      x ∈ l.foldl (fun acc t => if t ∈ acc then acc else acc ++ [t]) acc →
      x ∈ acc ∨ x ∈ l := by
  induction l with
  | nil => intro acc x hx; exact Or.inl hx
  | cons a rest ih =>
    intro acc x hx
    simp only [List.foldl_cons] at hx
    rcases ih _ x hx with h | h
    · by_cases ha : a ∈ acc
      · rw [if_pos ha] at h
        exact Or.inl h
      · rw [if_neg ha] at h
        rcases List.mem_append.mp h with h' | h'
        · exact Or.inl h'
        · simp only [List.mem_singleton] at h'
          subst h'
          exact Or.inr (List.mem_cons_self _ _)
    · exact Or.inr (List.mem_cons_of_mem _ h)

/-! Claim theorems on fare, self-routes, validation and expiry. -/

/-- C7: calculate_fare is zero for paths of fewer than two stations and
otherwise base + perStation * (length - 1); with the source constants 10
and 5 a five-station path costs 30.  As a Lean function it is pure, so the
same path always yields the same fare. -/
theorem calculate_fare_formula (base perStation : Nat) (path : List Nat) :
    calculate_fare base perStation path =
      (if path.length < 2 then 0 else base + (path.length - 1) * perStation) ∧
    (path.length = 5 → calculate_fare BASE_FARE PER_STATION_FARE path = 30) := by
  have hmain : ∀ b p : Nat, calculate_fare b p path =
      (if path.length < 2 then 0 else b + (path.length - 1) * p) := by
    intro b p
    unfold calculate_fare
    by_cases h : path.length < 2
    · rw [if_pos (Or.inr h), if_pos h]
    · have hne : ¬ (path.isEmpty = true ∨ path.length < 2) := by
        rcases path with _ | ⟨a, rest⟩
        · simp at h
        · simp only [List.isEmpty_cons, Bool.false_eq_true, false_or]
          omega
      rw [if_neg hne, if_neg h]
  refine ⟨hmain base perStation, ?_⟩
  intro h5
  rw [hmain BASE_FARE PER_STATION_FARE, h5]
  norm_num [BASE_FARE, PER_STATION_FARE]

/-- C7 witness: a concrete five-station path costs 30. -/
theorem calculate_fare_formula_witness :
    calculate_fare BASE_FARE PER_STATION_FARE [1, 2, 3, 4, 5] = 30 :=
  (calculate_fare_formula BASE_FARE PER_STATION_FARE [1, 2, 3, 4, 5]).2 rfl

/-- C10: for every station id, even an unknown or inactive one, the
origin == destination check of find_shortest_path fires before any
station validation or graph construction, returning the one-element
path. -/
theorem find_shortest_path_self (db : Db) (X : Nat) :
    find_shortest_path db X X = some [X] := by
  simp [find_shortest_path]

/-- A ticket already in use, scanned or read well past its expiry time. -/
def c3Ticket : Ticket :=
  { ticket_id := 7, origin := 1, destination := 2, price := 20,
    status := TStatus.in_use, purchased_at := 0, entry_time := some 1,
    exit_time := none }

/-- C3 counterexample: for an in_use ticket with now strictly past
purchased_at + EXPIRY_HOURS, neither the direct status read
(check_and_update_expiry) nor an entry-scan attempt transitions it to
expired: the read reports false and leaves it in_use, and scan_entry
fails on the status guard, which is evaluated before the expiry check. -/
theorem in_use_ticket_not_lazily_expired :
    c3Ticket.purchased_at + 24 < 100 ∧
    check_and_update_expiry 24 c3Ticket 100 = (c3Ticket, false) ∧
    scan_entry 24 c3Ticket [] 1 100 4 =
      (c3Ticket, [], false, ScanMsg.ticketIs TStatus.in_use) := by
  decide

/-- C3 amended: lazy expiry only transitions tickets whose status is
active; for those, check_and_update_expiry writes only the status, and
scan_entry expires the ticket before the origin guard (any station), while
for a non-active status the direct status read changes nothing. -/
theorem expiry_only_from_active (expiryHours : Nat) (t : Ticket) (now : Nat) :
    (t.status = TStatus.active → t.purchased_at + expiryHours < now →
      check_and_update_expiry expiryHours t now =
        ({ t with status := TStatus.expired }, true) ∧
      ∀ fs station today,
        scan_entry expiryHours t fs station now today =
          ({ t with status := TStatus.expired }, fs, false, ScanMsg.hasExpired)) ∧
    (t.status ≠ TStatus.active →
      check_and_update_expiry expiryHours t now = (t, false)) := by
  constructor
  · intro hact hexp
    have hie : is_expired expiryHours t now = true := by
      simp [is_expired, hexp]
    constructor
    · simp [check_and_update_expiry, hact, hie]
    · intro fs station today
      simp [scan_entry, hact, hie]
  · intro hnact
    simp [check_and_update_expiry, hnact]

/-- C3 amended witness: an expired active ticket is written to expired by
the status read, and an in_use ticket is left alone. -/
theorem expiry_only_from_active_witness :
    check_and_update_expiry 24 { c3Ticket with status := TStatus.active } 100 =
      ({ c3Ticket with status := TStatus.expired }, true) ∧
    check_and_update_expiry 24 c3Ticket 100 = (c3Ticket, false) :=
  ⟨((expiry_only_from_active 24 { c3Ticket with status := TStatus.active } 100).1
      rfl (by decide)).1,
    (expiry_only_from_active 24 c3Ticket 100).2 (by decide)⟩

/-- A snapshot with an inactive station 1 and an active station 2. -/
def c5Db : Db :=
  { lines := [{ lineId := 1, is_active := true, ticket_booking_enabled := true }],
    stations :=
      [{ sid := 1, lineId := 1, position := 0, is_interchange := false,
         is_active := false },
       { sid := 2, lineId := 1, position := 1, is_interchange := false,
         is_active := true }],
    connections := [] }

/-- C5 counterexample: with an endpoint that is not a known active station,
find_shortest_path raises no typed InvalidStationError: it returns None,
and for equal endpoints it even returns a path. -/
theorem invalid_station_no_typed_error :
    find_shortest_path c5Db 1 2 = none ∧
    find_shortest_path c5Db 9 9 = some [9] := by
  decide

/-- C5 amended: find_shortest_path surfaces no typed error — its only
outcomes are a path or None.  When the origin is not a known active
station and differs from the destination, it returns None (equal
endpoints return [origin] with no validation at all, and an invalid
destination is likewise never reported as an error). -/
theorem inactive_origin_returns_none (db : Db) (origin destination : Nat)
    (hne : origin ≠ destination)
    (h : ∀ s ∈ db.stations, s.is_active = true → s.sid ≠ origin) :
    find_shortest_path db origin destination = none := by
  have hadj : adjGet db origin = [] := adjGet_eq_nil_of_inactive db origin h
  unfold find_shortest_path bfsFuel
  rw [if_neg hne]
  simp [bfsLoop, hne, hadj]

/-- C5 amended witness: the inactive origin of c5Db yields None. -/
theorem inactive_origin_returns_none_witness :
    find_shortest_path c5Db 1 2 = none :=
  inactive_origin_returns_none c5Db 1 2 (by decide) (by decide)

/-- Two stations on an inactive line, and an inactive interchange target. -/
def c6Db : Db :=
  { lines :=
      [{ lineId := 1, is_active := false, ticket_booking_enabled := true },
       { lineId := 2, is_active := false, ticket_booking_enabled := true }],
    stations :=
      [{ sid := 1, lineId := 1, position := 0, is_interchange := false,
         is_active := true },
       { sid := 2, lineId := 1, position := 1, is_interchange := true,
         is_active := true },
       { sid := 3, lineId := 2, position := 0, is_interchange := true,
         is_active := false }],
    connections :=
      [{ from_station := 2, to_station := 3,
         connection_type := ConnType.interchange }] }

/-- C6 counterexample: every line of c6Db is inactive, yet station 1 is a
graph node with neighbor 2, the inactive station 3 appears as a neighbor
of 2 via its interchange row, and find_shortest_path returns paths running
along the inactive line and into the inactive station. -/
theorem inactive_line_station_in_graph :
    (∀ l ∈ c6Db.lines, l.is_active = false) ∧
    adjGet c6Db 1 = [2] ∧
    (3 ∈ adjGet c6Db 2 ∧
      ∀ s ∈ c6Db.stations, s.sid = 3 → s.is_active = false) ∧
    find_shortest_path c6Db 1 2 = some [1, 2] ∧
    find_shortest_path c6Db 1 3 = some [1, 2, 3] := by
  decide

/-- C6 amended: the graph's nodes are exactly the sids of stations with
is_active true (line activity is never consulted), and every neighbor is
either itself an active station's sid (the same-line next/previous
entries) or the target of a recorded interchange connection from that
node, which may be inactive. -/
theorem graph_nodes_active_neighbors (db : Db) (kv : Nat × List Nat)
    (hkv : kv ∈ adjacency db) :
    (∃ s ∈ db.stations, s.is_active = true ∧ s.sid = kv.1) ∧
    ∀ n ∈ kv.2,
      (∃ s ∈ db.stations, s.is_active = true ∧ s.sid = n) ∨
      ∃ c ∈ db.connections, c.connection_type = ConnType.interchange ∧
        c.from_station = kv.1 ∧ c.to_station = n := by
  simp only [adjacency, List.mem_map, List.mem_filter] at hkv
  obtain ⟨s, ⟨hsmem, hsact⟩, hkveq⟩ := hkv
  have hsact' : s.is_active = true := by simpa using hsact
  subst hkveq
  refine ⟨⟨s, hsmem, hsact', rfl⟩, ?_⟩
  intro n hn
  unfold stationNeighbors at hn
  rcases mem_foldl_dedup _ _ _ hn with hbase | htarget
  · left
    rcases List.mem_append.mp hbase with hnext | hprev
    · rcases hng : get_next_station db s with _ | ns
      · rw [hng] at hnext
        simp at hnext
      · rw [hng] at hnext
        simp only [List.mem_singleton] at hnext
        subst hnext
        have hmem : ns ∈ db.stations.filter fun t =>
            t.lineId = s.lineId ∧ t.position = s.position + 1 ∧
              t.is_active = true := by
          exact mem_of_head?_eq_some hng
        have := List.mem_filter.mp hmem
        refine ⟨ns, this.1, ?_, rfl⟩
        have h2 := this.2
        simp only [decide_eq_true_eq] at h2
        exact h2.2.2
    · rcases hpg : get_previous_station db s with _ | ps
      · rw [hpg] at hprev
        simp at hprev
      · rw [hpg] at hprev
        simp only [List.mem_singleton] at hprev
        subst hprev
        have hmem : ps ∈ db.stations.filter fun t =>
            t.lineId = s.lineId ∧ t.position = s.position - 1 ∧
              t.is_active = true := by
          exact mem_of_head?_eq_some hpg
        have := List.mem_filter.mp hmem
        refine ⟨ps, this.1, ?_, rfl⟩
        have h2 := this.2
        simp only [decide_eq_true_eq] at h2
        exact h2.2.2
  · right
    unfold interchangeTargets at htarget
    rcases List.mem_map.mp htarget with ⟨c, hcmem, hceq⟩
    have := List.mem_filter.mp hcmem
    have h2 := this.2
    simp only [decide_eq_true_eq] at h2
    exact ⟨c, this.1, h2.2, h2.1, hceq⟩

/-- C6 amended witness: the active-on-inactive-line node of c6Db is
classified by the amended statement. -/
theorem graph_nodes_active_neighbors_witness :
    (∃ s ∈ c6Db.stations, s.is_active = true ∧ s.sid = 1) ∧
    ∀ n ∈ [2],
      (∃ s ∈ c6Db.stations, s.is_active = true ∧ s.sid = n) ∨
      ∃ c ∈ c6Db.connections, c.connection_type = ConnType.interchange ∧
        c.from_station = 1 ∧ c.to_station = n :=
  graph_nodes_active_neighbors c6Db (1, [2]) (by decide)

/-- An in_use ticket for the race scenario, and its one-ticket store. -/
def c9Ticket : Ticket :=
  { ticket_id := 3, origin := 1, destination := 2, price := 20,
    status := TStatus.in_use, purchased_at := 0, entry_time := some 1,
    exit_time := none }

def c9State : ScanState :=
  { tickets := [c9Ticket], scans := [], footfall := [] }

/-- C9: under the read-before-write interleaving that the unserialized
scan_ticket view admits, two concurrent exit scans of the same in_use
ticket at its destination BOTH report success and each appends a
successful audit row, contradicting the required exactly-one-winner
guarantee; a serialized second scan would instead fail on the status
guard. -/
theorem concurrent_exit_scans_both_succeed :
    (concurrentExitScans c9State 3 2 8 9 5 1).2 =
      some ((true, ScanMsg.exitSuccessful), (true, ScanMsg.exitSuccessful)) ∧
    (concurrentExitScans c9State 3 2 8 9 5 1).1.scans.length = 2 ∧
    (∀ r ∈ (concurrentExitScans c9State 3 2 8 9 5 1).1.scans,
      r.success = true) ∧
    (scan_exit { c9Ticket with status := TStatus.used } [] 2 5 1).2.2.1 =
      false := by
  decide

/-! The ticket lifecycle as a transition system: step lemmas. -/

theorem applyEvent_edge (expiryHours : Nat) (st : Ticket × List DailyFootfall)
    (e : ScanEvent) :
    statusEdgeOk st.1.status (applyEvent expiryHours st e).1.status := by
  rcases e with ⟨station, now, today⟩ | ⟨station, now, today⟩ | now
  · by_cases h1 : st.1.status = TStatus.active
    · by_cases h2 : is_expired expiryHours st.1 now = true
      · have : (applyEvent expiryHours st (ScanEvent.entryScan station now today)).1.status =
            TStatus.expired := by
          simp [applyEvent, scan_entry, h1, h2]
        rw [this]
        exact Or.inr (Or.inr (Or.inr ⟨Or.inl h1, rfl⟩))
      · by_cases h3 : station = st.1.origin
        · have : (applyEvent expiryHours st (ScanEvent.entryScan station now today)).1.status =
              TStatus.in_use := by
            simp [applyEvent, scan_entry, h1, h2, h3]
          rw [this]
          exact Or.inr (Or.inl ⟨h1, rfl⟩)
        · have : (applyEvent expiryHours st (ScanEvent.entryScan station now today)).1 =
              st.1 := by
            simp [applyEvent, scan_entry, h1, h2, h3]
          rw [this]
          exact Or.inl rfl
    · have : (applyEvent expiryHours st (ScanEvent.entryScan station now today)).1 =
          st.1 := by
        simp [applyEvent, scan_entry, h1]
      rw [this]
      exact Or.inl rfl
  · by_cases h1 : st.1.status = TStatus.in_use
    · by_cases h2 : station = st.1.destination
      · have : (applyEvent expiryHours st (ScanEvent.exitScan station now today)).1.status =
            TStatus.used := by
          simp [applyEvent, scan_exit, h1, h2]
        rw [this]
        exact Or.inr (Or.inr (Or.inl ⟨h1, rfl⟩))
      · have : (applyEvent expiryHours st (ScanEvent.exitScan station now today)).1 =
            st.1 := by
          simp [applyEvent, scan_exit, h1, h2]
        rw [this]
        exact Or.inl rfl
    · have : (applyEvent expiryHours st (ScanEvent.exitScan station now today)).1 =
          st.1 := by
        simp [applyEvent, scan_exit, h1]
      rw [this]
      exact Or.inl rfl
  · by_cases h1 : st.1.status = TStatus.active ∧ is_expired expiryHours st.1 now = true
    · have : (applyEvent expiryHours st (ScanEvent.expiryCheck now)).1.status =
          TStatus.expired := by
        simp [applyEvent, check_and_update_expiry, h1]
      rw [this]
      exact Or.inr (Or.inr (Or.inr ⟨Or.inl h1.1, rfl⟩))
    · have : (applyEvent expiryHours st (ScanEvent.expiryCheck now)).1 = st.1 := by
        simp [applyEvent, check_and_update_expiry, h1]
      rw [this]
      exact Or.inl rfl

theorem applyEvent_terminal (expiryHours : Nat) (st : Ticket × List DailyFootfall)
    (e : ScanEvent)
    (h : st.1.status = TStatus.used ∨ st.1.status = TStatus.expired) :
    applyEvent expiryHours st e = st := by
  have hna : st.1.status ≠ TStatus.active := by
    rcases h with h | h <;> rw [h] <;> simp
  have hni : st.1.status ≠ TStatus.in_use := by
    rcases h with h | h <;> rw [h] <;> simp
  rcases e with ⟨station, now, today⟩ | ⟨station, now, today⟩ | now
  · simp [applyEvent, scan_entry, hna]
  · simp [applyEvent, scan_exit, hni]
  · simp [applyEvent, check_and_update_expiry, hna]

theorem applyEvent_used_from (expiryHours : Nat)
    (st : Ticket × List DailyFootfall) (e : ScanEvent)
    (h : (applyEvent expiryHours st e).1.status = TStatus.used) :
    st.1.status = TStatus.in_use ∨ st.1.status = TStatus.used := by
  have hedge := applyEvent_edge expiryHours st e
  rw [h] at hedge
  rcases hedge with h1 | ⟨_, h2⟩ | ⟨h3, _⟩ | ⟨_, h4⟩
  · exact Or.inr h1
  · simp at h2
  · exact Or.inl h3
  · simp at h4

theorem statusTrace_head? (expiryHours : Nat)
    (st : Ticket × List DailyFootfall) (es : List ScanEvent) :
    (statusTrace expiryHours st es).head? = some st.1.status := by
  cases es <;> rfl

theorem statusTrace_chain (expiryHours : Nat) :
    ∀ (es : List ScanEvent) (st : Ticket × List DailyFootfall),
      List.Chain' statusEdgeOk (statusTrace expiryHours st es) := by
  intro es
  induction es with
  | nil => intro st; simp [statusTrace]
  | cons e rest ih =>
    intro st
    simp only [statusTrace]
    rw [List.chain'_cons']
    refine ⟨?_, ih _⟩
    intro b hb
    rw [statusTrace_head? expiryHours _ rest] at hb
    simp only [Option.mem_def, Option.some.injEq] at hb
    rw [← hb]
    exact applyEvent_edge expiryHours st e

theorem statusTrace_used_mem (expiryHours : Nat) :
    ∀ (es : List ScanEvent) (st : Ticket × List DailyFootfall),
      TStatus.used ∈ statusTrace expiryHours st es →
      st.1.status = TStatus.used ∨
        TStatus.in_use ∈ statusTrace expiryHours st es := by
  intro es
  induction es with
  | nil =>
    intro st h
    simp only [statusTrace, List.mem_singleton] at h
    exact Or.inl h.symm
  | cons e rest ih =>
    intro st h
    simp only [statusTrace, List.mem_cons] at h
    rcases h with h | h
    · exact Or.inl h.symm
    · rcases ih _ h with h' | h'
      · rcases applyEvent_used_from expiryHours st e h' with hi | hu
        · right
          simp only [statusTrace, List.mem_cons]
          exact Or.inl hi.symm
        · exact Or.inl hu
      · right
        simp only [statusTrace, List.mem_cons]
        exact Or.inr h'

theorem runEvents_terminal (expiryHours : Nat) :
    ∀ (es : List ScanEvent) (st : Ticket × List DailyFootfall),
      (st.1.status = TStatus.used ∨ st.1.status = TStatus.expired) →
      runEvents expiryHours st es = st := by
  intro es
  induction es with
  | nil => intro st _; rfl
  | cons e rest ih =>
    intro st h
    have hstep := applyEvent_terminal expiryHours st e h
    simp only [runEvents, List.foldl_cons]
    rw [hstep]
    exact ih st h

/-- C2: along any sequence of entry scans, exit scans and expiry checks,
the ticket's status only moves along the allowed edges (stay, active to
in_use, in_use to used, active-or-in_use to expired), it can only reach
used from in_use, and once used or expired no event changes ticket or
footfall state at all. -/
theorem ticket_status_transitions (expiryHours : Nat) (t : Ticket)
    (fs : List DailyFootfall) (es : List ScanEvent) :
    List.Chain' statusEdgeOk (statusTrace expiryHours (t, fs) es) ∧
    (TStatus.used ∈ statusTrace expiryHours (t, fs) es →
      t.status = TStatus.used ∨
        TStatus.in_use ∈ statusTrace expiryHours (t, fs) es) ∧
    ((t.status = TStatus.used ∨ t.status = TStatus.expired) →
      runEvents expiryHours (t, fs) es = (t, fs)) :=
  ⟨statusTrace_chain expiryHours es (t, fs),
   statusTrace_used_mem expiryHours es (t, fs),
   runEvents_terminal expiryHours es (t, fs)⟩

/-- A ticket already fully consumed, used in witnesses. -/
def usedTicket : Ticket :=
  { ticket_id := 11, origin := 1, destination := 2, price := 20,
    status := TStatus.used, purchased_at := 0, entry_time := some 1,
    exit_time := some 2 }

/-- C2 witness: a used ticket is untouched by a further scan sequence. -/
theorem ticket_status_transitions_witness :
    runEvents 24 (usedTicket, [])
      [ScanEvent.entryScan 1 3 4, ScanEvent.exitScan 2 5 6] =
      (usedTicket, []) :=
  (ticket_status_transitions 24 usedTicket []
    [ScanEvent.entryScan 1 3 4, ScanEvent.exitScan 2 5 6]).2.2 (Or.inl rfl)

/-! Store lemmas for the scan view and footfall counters. -/

theorem map_self_of_eq {α : Type} (l : List α) (f : α → α)
    (h : ∀ x ∈ l, f x = x) : l.map f = l := by
  induction l with
  | nil => rfl
  | cons a rest ih =>
    simp only [List.map_cons]
    rw [h a (List.mem_cons_self a rest),
      ih fun x hx => h x (List.mem_cons_of_mem a hx)]

theorem findTicket_mem {ts : List Ticket} {tid : Nat} {t : Ticket}
    (h : findTicket ts tid = some t) : t ∈ ts ∧ t.ticket_id = tid := by
  unfold findTicket at h
  refine ⟨List.mem_of_find?_eq_some h, ?_⟩
  have := List.find?_some h
  simpa using this

theorem saveTicket_mem_nodup {ts : List Ticket} {t : Ticket}
    (hnd : (ts.map Ticket.ticket_id).Nodup) (hmem : t ∈ ts) :
    saveTicket ts t = ts := by
  unfold saveTicket
  apply map_self_of_eq
  intro x hx
  by_cases hid : x.ticket_id = t.ticket_id
  · rw [if_pos hid]
    exact (List.inj_on_of_nodup_map hnd hx hmem hid).symm
  · rw [if_neg hid]

/-- The lifecycle guards of claim C4: wrong current status, or — with the
status right and the ticket unexpired — the wrong station. -/
def guardFails (expiryHours : Nat) (t : Ticket) (station now : Nat) :
    ScanKind → Prop
  | ScanKind.entry =>
    t.status ≠ TStatus.active ∨
      (is_expired expiryHours t now = false ∧ station ≠ t.origin)
  | ScanKind.exit => t.status ≠ TStatus.in_use ∨ station ≠ t.destination

theorem scan_entry_guard_fail (expiryHours : Nat) (t : Ticket)
    (fs : List DailyFootfall) (station now today : Nat)
    (h : t.status ≠ TStatus.active ∨
      (is_expired expiryHours t now = false ∧ station ≠ t.origin)) :
    ∃ m, scan_entry expiryHours t fs station now today = (t, fs, false, m) := by
  rcases h with h | ⟨hexp, hst⟩
  · exact ⟨ScanMsg.ticketIs t.status, by simp [scan_entry, h]⟩
  · by_cases hact : t.status = TStatus.active
    · exact ⟨ScanMsg.invalidEntryStation t.origin,
        by simp [scan_entry, hact, hexp, hst]⟩
    · exact ⟨ScanMsg.ticketIs t.status, by simp [scan_entry, hact]⟩

theorem scan_exit_guard_fail (t : Ticket) (fs : List DailyFootfall)
    (station now today : Nat)
    (h : t.status ≠ TStatus.in_use ∨ station ≠ t.destination) :
    ∃ m, scan_exit t fs station now today = (t, fs, false, m) := by
  rcases h with h | h
  · exact ⟨ScanMsg.ticketIs t.status, by simp [scan_exit, h]⟩
  · by_cases hst : t.status = TStatus.in_use
    · exact ⟨ScanMsg.invalidExitStation t.destination,
        by simp [scan_exit, hst, h]⟩
    · exact ⟨ScanMsg.ticketIs t.status, by simp [scan_exit, hst]⟩

/-- C4: a scan attempt that fails its lifecycle guard (entry at a station
other than the origin, exit away from the destination, or a wrong current
status) returns success false with a message instead of raising, leaves the
ticket rows, their timestamps and the footfall store unchanged, and the
view still appends exactly one TicketScan audit row recording the
failure. -/
theorem guard_failure_preserves_state (expiryHours : Nat) (st : ScanState)
    (tid station : Nat) (kind : ScanKind) (operator now today : Nat)
    (t : Ticket) (hfind : findTicket st.tickets tid = some t)
    (hnd : (st.tickets.map Ticket.ticket_id).Nodup)
    (hguard : guardFails expiryHours t station now kind) :
    ∃ m, scan_ticket expiryHours st tid station kind operator now today =
      ({ tickets := st.tickets,
         scans := st.scans ++
          [{ ticket_id := tid, station := station, scan_type := kind,
             scanned_by := operator, success := false, message := m }],
         footfall := st.footfall }, some (false, m)) := by
  have hmem := (findTicket_mem hfind).1
  have hsave : saveTicket st.tickets t = st.tickets :=
    saveTicket_mem_nodup hnd hmem
  cases kind with
  | entry =>
    obtain ⟨m, hm⟩ :=
      scan_entry_guard_fail expiryHours t st.footfall station now today hguard
    refine ⟨m, ?_⟩
    simp only [scan_ticket, hfind, hm, hsave]
  | exit =>
    obtain ⟨m, hm⟩ :=
      scan_exit_guard_fail t st.footfall station now today hguard
    refine ⟨m, ?_⟩
    simp only [scan_ticket, hfind, hm, hsave]

/-- C4 witness: an entry scan of an in_use ticket fails and audits once. -/
theorem guard_failure_preserves_state_witness :
    ∃ m, scan_ticket 24 c9State 3 1 ScanKind.entry 8 5 1 =
      ({ tickets := c9State.tickets,
         scans := c9State.scans ++
          [{ ticket_id := 3, station := 1, scan_type := ScanKind.entry,
             scanned_by := 8, success := false, message := m }],
         footfall := c9State.footfall }, some (false, m)) :=
  guard_failure_preserves_state 24 c9State 3 1 ScanKind.entry 8 5 1 c9Ticket
    (by decide) (by decide) (Or.inl (by decide))

/-- Footfall counter lemmas: find? across a same-key row save. -/
theorem find?_saveFootfall_same (station date : Nat) (r' : DailyFootfall)
    (hst : r'.station = station) (hd : r'.date = date) :
    ∀ fs : List DailyFootfall,
      (fs.find? fun r => r.station = station ∧ r.date = date).isSome = true →
      (saveFootfall fs r').find?
        (fun r => r.station = station ∧ r.date = date) = some r' := by
  intro fs
  induction fs with
  | nil => intro h; simp at h
  | cons x rest ih =>
    intro h
    by_cases hx : x.station = station ∧ x.date = date
    · have hmap : (if x.station = r'.station ∧ x.date = r'.date then r' else x)
          = r' := by
        rw [if_pos]
        rw [hst, hd]
        exact hx
      simp only [saveFootfall, List.map_cons] at *
      rw [hmap]
      apply List.find?_cons_of_pos
      simp [hst, hd]
    · have hmap : (if x.station = r'.station ∧ x.date = r'.date then r' else x)
          = x := by
        rw [if_neg]
        rw [hst, hd]
        exact hx
      simp only [saveFootfall, List.map_cons] at *
      rw [hmap]
      rw [List.find?_cons_of_neg _ (by simpa using hx)]
      apply ih
      rw [List.find?_cons_of_neg _ (by simpa using hx)] at h
      exact h

theorem find?_append_of_none {α : Type} (p : α → Bool) :
    ∀ l1 l2 : List α, l1.find? p = none →
      (l1 ++ l2).find? p = l2.find? p := by
  intro l1 l2
  induction l1 with
  | nil => intro _; rfl
  | cons x rest ih =>
    intro h
    rw [List.find?_cons] at h
    rcases hx : p x with _ | _
    · rw [hx] at h
      simp only [List.cons_append, List.find?_cons, hx]
      exact ih h
    · rw [hx] at h
      simp at h

theorem footfallRecordEntry_counts (fs : List DailyFootfall)
    (station date : Nat) :
    entryCountOf (footfallRecordEntry fs station date) station date =
      entryCountOf fs station date + 1 ∧
    exitCountOf (footfallRecordEntry fs station date) station date =
      exitCountOf fs station date ∧
    ((footfallRecordEntry fs station date).find?
      (fun r => r.station = station ∧ r.date = date)).isSome = true := by
  rcases hf : fs.find? (fun r => r.station = station ∧ r.date = date) with _ | r
  · -- no row yet: a zero row is appended, then saved with entry_count 1
    have hall := List.find?_eq_none.mp hf
    have hres : footfallRecordEntry fs station date =
        fs ++ [record_entry
          { station := station, date := date, entry_count := 0,
            exit_count := 0 }] := by
      simp only [footfallRecordEntry, get_or_create, hf]
      unfold saveFootfall
      rw [List.map_append]
      congr 1
      · apply map_self_of_eq
        intro x hx
        rw [if_neg]
        intro hkey
        apply hall x hx
        simp only [decide_eq_true_eq]
        simp only [record_entry] at hkey
        exact hkey
      · simp [record_entry]
    rw [hres]
    have hfind : (fs ++ [record_entry
        { station := station, date := date, entry_count := 0,
          exit_count := 0 }]).find?
        (fun r => r.station = station ∧ r.date = date) =
        some (record_entry
          { station := station, date := date, entry_count := 0,
            exit_count := 0 }) := by
      rw [find?_append_of_none _ _ _ hf]
      apply List.find?_cons_of_pos
      simp [record_entry]
    unfold entryCountOf exitCountOf
    rw [hfind, hf]
    simp [record_entry]
  · -- the row exists: it is incremented in place and saved under its key
    have hp := List.find?_some hf
    simp only [decide_eq_true_eq] at hp
    have hres : footfallRecordEntry fs station date =
        saveFootfall fs (record_entry r) := by
      simp only [footfallRecordEntry, get_or_create, hf]
    have hsome :
        (fs.find? fun x => x.station = station ∧ x.date = date).isSome = true := by
      rw [hf]
      rfl
    have hfind := find?_saveFootfall_same station date (record_entry r)
      (by simp [record_entry, hp.1]) (by simp [record_entry, hp.2]) fs hsome
    rw [hres]
    unfold entryCountOf exitCountOf
    rw [hfind, hf]
    simp [record_entry]

/-- C8: an active, unexpired ticket scanned for entry at its origin moves
to in_use with entry_time set to now and nothing else changed on the
ticket, and the (station, today) footfall row — created with zero counts
first when absent — has its entry_count incremented by exactly one while
its exit_count is untouched. -/
theorem scan_entry_success_effects (expiryHours : Nat) (t : Ticket)
    (fs : List DailyFootfall) (now today : Nat)
    (hact : t.status = TStatus.active)
    (hexp : ¬ (t.purchased_at + expiryHours < now)) :
    scan_entry expiryHours t fs t.origin now today =
      ({ t with status := TStatus.in_use, entry_time := some now },
        footfallRecordEntry fs t.origin today, true,
        ScanMsg.entrySuccessful) ∧
    entryCountOf (footfallRecordEntry fs t.origin today) t.origin today =
      entryCountOf fs t.origin today + 1 ∧
    exitCountOf (footfallRecordEntry fs t.origin today) t.origin today =
      exitCountOf fs t.origin today ∧
    ((footfallRecordEntry fs t.origin today).find?
      (fun r => r.station = t.origin ∧ r.date = today)).isSome = true := by
  refine ⟨?_, footfallRecordEntry_counts fs t.origin today⟩
  simp [scan_entry, hact, is_expired, hexp]

/-- C8 witness: a fresh active ticket entering at its origin; the counter
goes from absent to one. -/
theorem scan_entry_success_effects_witness :
    scan_entry 24
      { ticket_id := 5, origin := 1, destination := 2, price := 20,
        status := TStatus.active, purchased_at := 0, entry_time := none,
        exit_time := none } [] 1 3 4 =
      ({ ticket_id := 5, origin := 1, destination := 2, price := 20,
         status := TStatus.in_use, purchased_at := 0, entry_time := some 3,
         exit_time := none },
        footfallRecordEntry [] 1 4, true, ScanMsg.entrySuccessful) ∧
    entryCountOf (footfallRecordEntry [] 1 4) 1 4 =
      entryCountOf ([] : List DailyFootfall) 1 4 + 1 :=
  ⟨(scan_entry_success_effects 24
      { ticket_id := 5, origin := 1, destination := 2, price := 20,
        status := TStatus.active, purchased_at := 0, entry_time := none,
        exit_time := none } [] 3 4 rfl (by decide)).1,
    (scan_entry_success_effects 24
      { ticket_id := 5, origin := 1, destination := 2, price := 20,
        status := TStatus.active, purchased_at := 0, entry_time := none,
        exit_time := none } [] 3 4 rfl (by decide)).2.1⟩

/-! Walk, chain and potential lemmas for the BFS correctness proof. -/

theorem getLastD_spec (p : List Nat) (h : p ≠ []) :
    p.getLast? = some (p.getLastD 0) := by
  rw [List.getLastD_eq_getLast?]
  rcases hg : p.getLast? with _ | a
  · exact absurd (List.getLast?_eq_none_iff.mp hg) h
  · rfl

theorem head?_append_left {p q : List Nat} (h : p ≠ []) :
    (p ++ q).head? = p.head? := by
  rw [List.head?_append]
  cases p with
  | nil => exact absurd rfl h
  | cons a t => rfl

theorem getLast?_append_right {p q : List Nat} (h : q ≠ []) :
    (p ++ q).getLast? = q.getLast? := by
  rw [List.getLast?_append]
  rcases hg : q.getLast? with _ | a
  · exact absurd (List.getLast?_eq_none_iff.mp hg) h
  · rfl

theorem isChain_cons_tail {adjF : Nat → List Nat} {a : Nat} {l : List Nat}
    (h : isChain adjF (a :: l) = true) : isChain adjF l = true := by
  cases l with
  | nil => rfl
  | cons b t =>
    simp only [isChain, Bool.and_eq_true] at h
    exact h.2

theorem isChain_suffix {adjF : Nat → List Nat} :
    ∀ (t1 t2 : List Nat), isChain adjF (t1 ++ t2) = true →
      isChain adjF t2 = true := by
  intro t1
  induction t1 with
  | nil => intro t2 h; exact h
  | cons a rest ih =>
    intro t2 h
    rw [List.cons_append] at h
    exact ih t2 (isChain_cons_tail h)

theorem isChain_snoc {adjF : Nat → List Nat} :
    ∀ (p : List Nat) (c n : Nat), isChain adjF p = true →
      p.getLast? = some c → n ∈ adjF c →
      isChain adjF (p ++ [n]) = true := by
  intro p
  induction p with
  | nil =>
    intro c n _ hl _
    simp at hl
  | cons a rest ih =>
    intro c n hc hl hn
    cases rest with
    | nil =>
      rw [List.getLast?_singleton, Option.some.injEq] at hl
      subst hl
      simp [isChain, hn]
    | cons b t =>
      rw [List.cons_append]
      simp only [isChain, Bool.and_eq_true] at hc ⊢
      refine ⟨hc.1, ?_⟩
      apply ih c n hc.2 ?_ hn
      rw [← hl, List.getLast?_cons_cons]

theorem isChain_head_adj {adjF : Nat → List Nat} {c n : Nat} {t : List Nat}
    (h : isChain adjF (c :: n :: t) = true) : n ∈ adjF c := by
  simp only [isChain, Bool.and_eq_true, decide_eq_true_eq] at h
  exact h.1

theorem mem_split_last {c : Nat} :
    ∀ {t : List Nat}, c ∈ t → ∃ t1 t2, t = t1 ++ c :: t2 ∧ c ∉ t2 := by
  intro t
  induction t with
  | nil => intro h; simp at h
  | cons a rest ih =>
    intro h
    by_cases hcr : c ∈ rest
    · obtain ⟨t1, t2, heq, hnot⟩ := ih hcr
      exact ⟨a :: t1, t2, by rw [heq, List.cons_append], hnot⟩
    · have hca : c = a := by
        rcases List.mem_cons.mp h with h' | h'
        · exact h'
        · exact absurd h' hcr
      subst hca
      exact ⟨[], rest, rfl, hcr⟩

theorem walk_ne_nil {adjF : Nat → List Nat} {o v : Nat} {w : List Nat}
    (h : IsWalkFromTo adjF o v w) : w ≠ [] := by
  intro hn
  rw [hn] at h
  simp [IsWalkFromTo] at h

/-- Whether the adjacency dict has an entry for this key. -/
def hasKey (l : List (Nat × List Nat)) (c : Nat) : Bool :=
  l.any fun kv => kv.1 = c

theorem dictGet_of_hasKey_false {l : List (Nat × List Nat)} {c : Nat}
    (h : hasKey l c = false) : dictGet l c = [] := by
  induction l with
  | nil => rfl
  | cons kv rest ih =>
    simp only [hasKey, List.any_cons, Bool.or_eq_false_iff,
      decide_eq_false_iff_not] at h
    simp only [dictGet, if_neg h.1]
    exact ih h.2

theorem sum_filter_mono (f : Nat × List Nat → Nat)
    (p q : Nat × List Nat → Bool) (himp : ∀ x, p x = true → q x = true) :
    ∀ l : List (Nat × List Nat),
      ((l.filter p).map f).sum ≤ ((l.filter q).map f).sum := by
  intro l
  induction l with
  | nil => exact Nat.le_refl 0
  | cons x rest ih =>
    rcases hp : p x with _ | _
    · rcases hq : q x with _ | _
      · simp only [List.filter_cons, hp, hq]
        simpa using ih
      · simp [List.filter_cons, hp, hq]
        omega
    · have hq := himp x hp
      simp [List.filter_cons, hp, hq]
      omega

theorem potentialOf_mono (l : List (Nat × List Nat)) (c : Nat)
    (visited : List Nat) :
    potentialOf l (c :: visited) ≤ potentialOf l visited := by
  unfold potentialOf
  apply sum_filter_mono
  intro x hx
  simp only [decide_eq_true_eq] at hx ⊢
  intro hmem
  exact hx (List.mem_cons_of_mem c hmem)

theorem potentialOf_cons_pos (kv : Nat × List Nat) (visited : List Nat)
    (rest : List (Nat × List Nat)) (h : kv.1 ∉ visited) :
    potentialOf (kv :: rest) visited =
      kv.2.length + 1 + potentialOf rest visited := by
  unfold potentialOf
  rw [List.filter_cons, if_pos (decide_eq_true h), List.map_cons,
    List.sum_cons]

theorem potentialOf_cons_neg (kv : Nat × List Nat) (visited : List Nat)
    (rest : List (Nat × List Nat)) (h : kv.1 ∈ visited) :
    potentialOf (kv :: rest) visited = potentialOf rest visited := by
  unfold potentialOf
  rw [List.filter_cons, if_neg]
  simpa using h

theorem potentialOf_drop (c : Nat) (visited : List Nat) (hc : c ∉ visited) :
    ∀ l : List (Nat × List Nat), hasKey l c = true →
      potentialOf l (c :: visited) + ((dictGet l c).length + 1) ≤
        potentialOf l visited := by
  intro l
  induction l with
  | nil => intro h; simp [hasKey] at h
  | cons kv rest ih =>
    intro hk
    by_cases hkc : kv.1 = c
    · have hdg : dictGet (kv :: rest) c = kv.2 := by
        simp [dictGet, hkc]
      have hleft : potentialOf (kv :: rest) (c :: visited) =
          potentialOf rest (c :: visited) :=
        potentialOf_cons_neg kv _ rest (by rw [hkc]; exact List.mem_cons_self c visited)
      have hright : potentialOf (kv :: rest) visited =
          kv.2.length + 1 + potentialOf rest visited :=
        potentialOf_cons_pos kv _ rest (by rw [hkc]; exact hc)
      rw [hdg, hleft, hright]
      have := potentialOf_mono rest c visited
      omega
    · have hdg : dictGet (kv :: rest) c = dictGet rest c := by
        simp [dictGet, hkc]
      have hk' : hasKey rest c = true := by
        simp only [hasKey, List.any_cons, Bool.or_eq_true] at hk
        rcases hk with hk | hk
        · exact absurd (by simpa using hk) hkc
        · exact hk
      have hstep := ih hk'
      by_cases hv : kv.1 ∈ visited
      · have hleft : potentialOf (kv :: rest) (c :: visited) =
            potentialOf rest (c :: visited) :=
          potentialOf_cons_neg kv _ rest (List.mem_cons_of_mem c hv)
        have hright : potentialOf (kv :: rest) visited =
            potentialOf rest visited :=
          potentialOf_cons_neg kv _ rest hv
        rw [hdg, hleft, hright]
        exact hstep
      · have hnc : kv.1 ∉ c :: visited := by
          intro hmem
          rcases List.mem_cons.mp hmem with h' | h'
          · exact hkc h'
          · exact hv h'
        have hleft : potentialOf (kv :: rest) (c :: visited) =
            kv.2.length + 1 + potentialOf rest (c :: visited) :=
          potentialOf_cons_pos kv _ rest hnc
        have hright : potentialOf (kv :: rest) visited =
            kv.2.length + 1 + potentialOf rest visited :=
          potentialOf_cons_pos kv _ rest hv
        rw [hdg, hleft, hright]
        omega

/-- A queue entry of the BFS: a chain that starts at the origin. -/
def QueueEntryOk (adjF : Nat → List Nat) (o : Nat) (p : List Nat) : Prop :=
  p.head? = some o ∧ isChain adjF p = true

/-- The covering invariant: every walk from the origin to an unvisited
node is matched, up to length, by a queue entry plus a wholly-unvisited
continuation. -/
def KeyInv (adjF : Nat → List Nat) (o : Nat) (queue : List (List Nat))
    (visited : List Nat) : Prop :=
  ∀ v, v ∉ visited → ∀ w, IsWalkFromTo adjF o v w →
    ∃ p ∈ queue, ∃ t, IsWalkFromTo adjF (p.getLastD 0) v t ∧
      (∀ x ∈ t, x ∉ visited) ∧ p.length + t.length ≤ w.length + 1

/-- The full loop invariant of the BFS of find_shortest_path. -/
structure BfsInv (adjF : Nat → List Nat) (o dest : Nat)
    (queue : List (List Nat)) (visited : List Nat) : Prop where
  entries : ∀ p ∈ queue, QueueEntryOk adjF o p
  sorted : queue.Pairwise fun p q => p.length ≤ q.length
  close : ∀ p ∈ queue, ∀ q ∈ queue, p.length ≤ q.length + 1
  destNot : dest ∉ visited
  key : KeyInv adjF o queue visited

theorem bfsInv_skip {adjF : Nat → List Nat} {o dest : Nat} {h : List Nat}
    {rest : List (List Nat)} {visited : List Nat}
    (hinv : BfsInv adjF o dest (h :: rest) visited)
    (hcv : h.getLastD 0 ∈ visited) :
    BfsInv adjF o dest rest visited := by
  refine ⟨?_, (List.pairwise_cons.mp hinv.sorted).2, ?_, hinv.destNot, ?_⟩
  · intro p hp
    exact hinv.entries p (List.mem_cons_of_mem _ hp)
  · intro p hp q hq
    exact hinv.close p (List.mem_cons_of_mem _ hp) q (List.mem_cons_of_mem _ hq)
  · intro v hv w hw
    obtain ⟨p, hp, t, hwt, htv, hlen⟩ := hinv.key v hv w hw
    rcases List.mem_cons.mp hp with rfl | hp'
    · exfalso
      exact htv (p.getLastD 0) (mem_of_head?_eq_some hwt.1) hcv
    · exact ⟨p, hp', t, hwt, htv, hlen⟩

theorem bfsInv_expand {adjF : Nat → List Nat} {o dest : Nat} {h : List Nat}
    {rest : List (List Nat)} {visited : List Nat}
    (hinv : BfsInv adjF o dest (h :: rest) visited)
    (hcv : h.getLastD 0 ∉ visited)
    (hcd : h.getLastD 0 ≠ dest) :
    BfsInv adjF o dest
      (rest ++ ((adjF (h.getLastD 0)).filter
        (fun n => decide (n ∉ h.getLastD 0 :: visited))).map (fun n => h ++ [n]))
      (h.getLastD 0 :: visited) := by
  have hhne : h ≠ [] := by
    have hh := (hinv.entries h (List.mem_cons_self h rest)).1
    intro hn
    rw [hn] at hh
    simp at hh
  have hlast : h.getLast? = some (h.getLastD 0) := getLastD_spec h hhne
  have hnews_mem : ∀ p ∈ ((adjF (h.getLastD 0)).filter
      (fun n => decide (n ∉ h.getLastD 0 :: visited))).map (fun n => h ++ [n]),
      ∃ n, n ∈ adjF (h.getLastD 0) ∧ n ∉ h.getLastD 0 :: visited ∧
        p = h ++ [n] := by
    intro p hp
    rcases List.mem_map.mp hp with ⟨n, hn, rfl⟩
    have := List.mem_filter.mp hn
    exact ⟨n, this.1, by simpa using this.2, rfl⟩
  have hnews_len : ∀ p ∈ ((adjF (h.getLastD 0)).filter
      (fun n => decide (n ∉ h.getLastD 0 :: visited))).map (fun n => h ++ [n]),
      p.length = h.length + 1 := by
    intro p hp
    obtain ⟨n, _, _, rfl⟩ := hnews_mem p hp
    simp
  have hnews_entry : ∀ p ∈ ((adjF (h.getLastD 0)).filter
      (fun n => decide (n ∉ h.getLastD 0 :: visited))).map (fun n => h ++ [n]),
      QueueEntryOk adjF o p := by
    intro p hp
    obtain ⟨n, hnadj, _, rfl⟩ := hnews_mem p hp
    constructor
    · rw [head?_append_left hhne]
      exact (hinv.entries h (List.mem_cons_self h rest)).1
    · exact isChain_snoc h (h.getLastD 0) n
        (hinv.entries h (List.mem_cons_self h rest)).2 hlast hnadj
  refine ⟨?_, ?_, ?_, ?_, ?_⟩
  · -- entries
    intro p hp
    rcases List.mem_append.mp hp with hp | hp
    · exact hinv.entries p (List.mem_cons_of_mem _ hp)
    · exact hnews_entry p hp
  · -- sorted
    rw [List.pairwise_append]
    refine ⟨(List.pairwise_cons.mp hinv.sorted).2, ?_, ?_⟩
    · apply List.pairwise_of_forall_mem_list
      intro a ha b hb
      rw [hnews_len a ha, hnews_len b hb]
    · intro a ha b hb
      rw [hnews_len b hb]
      have := hinv.close a (List.mem_cons_of_mem _ ha) h
        (List.mem_cons_self h rest)
      omega
  · -- close
    intro p hp q hq
    rcases List.mem_append.mp hp with hp | hp <;>
      rcases List.mem_append.mp hq with hq | hq
    · exact hinv.close p (List.mem_cons_of_mem _ hp) q
        (List.mem_cons_of_mem _ hq)
    · have h1 := hinv.close p (List.mem_cons_of_mem _ hp) h
        (List.mem_cons_self h rest)
      have h2 := hnews_len q hq
      omega
    · have h1 := List.rel_of_pairwise_cons hinv.sorted hq
      have h2 := hnews_len p hp
      omega
    · have h1 := hnews_len p hp
      have h2 := hnews_len q hq
      omega
  · -- destination unvisited
    intro hmem
    rcases List.mem_cons.mp hmem with h' | h'
    · exact hcd h'.symm
    · exact hinv.destNot h'
  · -- covering invariant
    intro v hv w hw
    have hvv : v ∉ visited := fun hx => hv (List.mem_cons_of_mem _ hx)
    have hvc : v ≠ h.getLastD 0 := by
      intro he
      exact hv (he ▸ List.mem_cons_self _ _)
    obtain ⟨q, hq, t, hwt, htv, hlen⟩ := hinv.key v hvv w hw
    have hql : h.length ≤ q.length := by
      rcases List.mem_cons.mp hq with rfl | hq'
      · exact Nat.le_refl _
      · exact List.rel_of_pairwise_cons hinv.sorted hq'
    by_cases hct : h.getLastD 0 ∈ t
    · -- rebuild the witness through the expansion of the current station
      obtain ⟨t1, t2, hteq, hct2⟩ := mem_split_last hct
      have ht2ne : t2 ≠ [] := by
        intro h2
        rw [h2] at hteq
        have hlt : t.getLast? = some (h.getLastD 0) := by
          rw [hteq]
          exact List.getLast?_concat _
        have hv' : t.getLast? = some v := hwt.2.1
        rw [hlt] at hv'
        injection hv' with hv''
        exact hvc hv''.symm
      obtain ⟨n, t2', rfl⟩ := List.exists_cons_of_ne_nil ht2ne
      have hchain_ct2 : isChain adjF (h.getLastD 0 :: n :: t2') = true := by
        have hcw := hwt.2.2
        rw [hteq] at hcw
        exact isChain_suffix t1 _ hcw
      have hnadj : n ∈ adjF (h.getLastD 0) := isChain_head_adj hchain_ct2
      have hnt : n ∈ t := by
        rw [hteq]
        exact List.mem_append_right t1
          (List.mem_cons_of_mem _ (List.mem_cons_self n t2'))
      have hnvis : n ∉ visited := htv n hnt
      have hnc : n ≠ h.getLastD 0 := by
        intro he
        exact hct2 (he ▸ List.mem_cons_self n t2')
      have hnp : (h ++ [n]) ∈ ((adjF (h.getLastD 0)).filter
          (fun n => decide (n ∉ h.getLastD 0 :: visited))).map
          (fun n => h ++ [n]) := by
        apply List.mem_map.mpr
        refine ⟨n, List.mem_filter.mpr ⟨hnadj, ?_⟩, rfl⟩
        simp only [decide_eq_true_eq]
        intro hmem
        rcases List.mem_cons.mp hmem with h' | h'
        · exact hnc h'
        · exact hnvis h'
      have hlastn : (h ++ [n]).getLastD 0 = n := by
        rw [List.getLastD_eq_getLast?, List.getLast?_concat]
        rfl
      refine ⟨h ++ [n], List.mem_append_right rest hnp, n :: t2', ?_, ?_, ?_⟩
      · rw [hlastn]
        refine ⟨rfl, ?_, isChain_cons_tail hchain_ct2⟩
        have hv' : t.getLast? = some v := hwt.2.1
        rw [hteq, getLast?_append_right (by simp),
          List.getLast?_cons_cons] at hv'
        exact hv'
      · intro x hx
        have hxt : x ∈ t := by
          rw [hteq]
          exact List.mem_append_right t1 (List.mem_cons_of_mem _ hx)
        intro hxc
        rcases List.mem_cons.mp hxc with rfl | hxv
        · rcases List.mem_cons.mp hx with h' | h'
          · exact hnc h'.symm
          · exact hct2 (List.mem_cons_of_mem n h')
        · exact htv x hxt hxv
      · have ht_len : t.length = t1.length + t2'.length + 2 := by
          rw [hteq]
          simp [List.length_append]
          omega
        have hwl : q.length + t.length ≤ w.length + 1 := hlen
        simp only [List.length_append, List.length_cons, List.length_nil]
        omega
    · -- witness untouched by this expansion
      have hqh : q ≠ h := by
        intro he
        apply hct
        have := mem_of_head?_eq_some hwt.1
        rw [he] at this
        exact this
      have hq' : q ∈ rest := by
        rcases List.mem_cons.mp hq with he | h'
        · exact absurd he hqh
        · exact h'
      refine ⟨q, List.mem_append_left _ hq', t, hwt, ?_, hlen⟩
      intro x hx hxc
      rcases List.mem_cons.mp hxc with rfl | hxv
      · exact hct hx
      · exact htv x hx hxv

theorem bfsLoop_finds_shortest (l : List (Nat × List Nat)) (o dest : Nat) :
    ∀ (fuel : Nat) (queue : List (List Nat)) (visited : List Nat),
      BfsInv (dictGet l) o dest queue visited →
      queue.length + potentialOf l visited ≤ fuel →
      (∃ w, IsWalkFromTo (dictGet l) o dest w) →
      ∃ p, bfsLoop (dictGet l) dest fuel queue visited = some p ∧
        IsWalkFromTo (dictGet l) o dest p ∧
        ∀ w, IsWalkFromTo (dictGet l) o dest w → p.length ≤ w.length := by
  intro fuel
  induction fuel with
  | zero =>
    intro queue visited hinv hfuel hw
    exfalso
    obtain ⟨w, hww⟩ := hw
    obtain ⟨p, hp, -⟩ := hinv.key dest hinv.destNot w hww
    cases queue with
    | nil => simp at hp
    | cons hq rest =>
      simp only [List.length_cons] at hfuel
      omega
  | succ fuel ih =>
    intro queue visited hinv hfuel hw
    cases queue with
    | nil =>
      exfalso
      obtain ⟨w, hww⟩ := hw
      obtain ⟨p, hp, -⟩ := hinv.key dest hinv.destNot w hww
      simp at hp
    | cons h rest =>
      have hhne : h ≠ [] := by
        have hh := (hinv.entries h (List.mem_cons_self h rest)).1
        intro hn
        rw [hn] at hh
        simp at hh
      by_cases hcd : h.getLastD 0 = dest
      · -- the popped path already ends at the destination
        refine ⟨h, ?_, ?_, ?_⟩
        · simp only [bfsLoop]
          rw [if_pos hcd]
        · refine ⟨(hinv.entries h (List.mem_cons_self h rest)).1, ?_,
            (hinv.entries h (List.mem_cons_self h rest)).2⟩
          rw [getLastD_spec h hhne, hcd]
        · intro w hww
          obtain ⟨q, hq, t, hwt, htv, hlen⟩ :=
            hinv.key dest hinv.destNot w hww
          have htpos : 1 ≤ t.length :=
            List.length_pos.mpr (walk_ne_nil hwt)
          have hql : h.length ≤ q.length := by
            rcases List.mem_cons.mp hq with rfl | hq'
            · exact Nat.le_refl _
            · exact List.rel_of_pairwise_cons hinv.sorted hq'
          omega
      · by_cases hcv : h.getLastD 0 ∈ visited
        · -- already expanded: drop the path
          have hinv' := bfsInv_skip hinv hcv
          have hfuel' : rest.length + potentialOf l visited ≤ fuel := by
            simp only [List.length_cons] at hfuel
            omega
          obtain ⟨p, hres, hpw, hmin⟩ := ih rest visited hinv' hfuel' hw
          refine ⟨p, ?_, hpw, hmin⟩
          simp only [bfsLoop]
          rw [if_neg hcd, if_pos hcv]
          exact hres
        · -- expand the current station
          have hinv' := bfsInv_expand hinv hcv hcd
          have hfuel' : (rest ++ ((dictGet l (h.getLastD 0)).filter
              (fun n => decide (n ∉ h.getLastD 0 :: visited))).map
              (fun n => h ++ [n])).length +
              potentialOf l (h.getLastD 0 :: visited) ≤ fuel := by
            rw [List.length_append, List.length_map]
            have hfl := List.length_filter_le
              (fun n => decide (n ∉ h.getLastD 0 :: visited))
              (dictGet l (h.getLastD 0))
            simp only [List.length_cons] at hfuel
            rcases hk : hasKey l (h.getLastD 0) with _ | _
            · have hdg := dictGet_of_hasKey_false hk
              rw [hdg] at hfl ⊢
              simp only [List.filter_nil, List.length_nil]
              have hpm := potentialOf_mono l (h.getLastD 0) visited
              omega
            · have hdrop := potentialOf_drop (h.getLastD 0) visited hcv l hk
              omega
          obtain ⟨p, hres, hpw, hmin⟩ := ih _ _ hinv' hfuel' hw
          refine ⟨p, ?_, hpw, hmin⟩
          simp only [bfsLoop]
          rw [if_neg hcd, if_neg hcv]
          exact hres

theorem bfsInv_init (adjF : Nat → List Nat) (o dest : Nat) :
    BfsInv adjF o dest [[o]] [] := by
  refine ⟨?_, ?_, ?_, ?_, ?_⟩
  · intro p hp
    rw [List.mem_singleton] at hp
    subst hp
    exact ⟨rfl, rfl⟩
  · simp
  · intro p hp q hq
    rw [List.mem_singleton] at hp
    rw [List.mem_singleton] at hq
    subst hp
    subst hq
    omega
  · simp
  · intro v hv w hw
    refine ⟨[o], List.mem_singleton.mpr rfl, w, ?_, ?_, ?_⟩
    · have ho : ([o] : List Nat).getLastD 0 = o := rfl
      rw [ho]
      exact hw
    · intro x hx
      simp
    · simp only [List.length_cons, List.length_nil]
      omega

/-- C1: whenever any walk respecting the code's adjacency rules joins the
two endpoints, find_shortest_path returns a path that is itself such a
walk and whose length — hence hop count — is minimal among all those
walks; being a pure function of the snapshot, repeated calls on the same
graph return the identical path. -/
theorem find_shortest_path_minimal (db : Db) (o d : Nat)
    (hw : ∃ w, IsWalkFromTo (adjGet db) o d w) :
    ∃ p, find_shortest_path db o d = some p ∧
      IsWalkFromTo (adjGet db) o d p ∧
      ∀ w, IsWalkFromTo (adjGet db) o d w → p.length ≤ w.length := by
  by_cases hod : o = d
  · subst hod
    refine ⟨[o], find_shortest_path_self db o,
      ⟨rfl, List.getLast?_singleton o, rfl⟩, ?_⟩
    intro w hww
    have h1 := List.length_pos.mpr (walk_ne_nil hww)
    simpa using h1
  · have hinv : BfsInv (dictGet (adjacency db)) o d [[o]] [] :=
      bfsInv_init _ o d
    have hfuel : ([[o]] : List (List Nat)).length +
        potentialOf (adjacency db) [] ≤ bfsFuel db := by
      unfold bfsFuel
      simp only [List.length_cons, List.length_nil]
      omega
    obtain ⟨p, hres, hpw, hmin⟩ :=
      bfsLoop_finds_shortest (adjacency db) o d (bfsFuel db) [[o]] []
        hinv hfuel hw
    refine ⟨p, ?_, hpw, hmin⟩
    unfold find_shortest_path
    rw [if_neg hod]
    exact hres

/-- A three-station active line for the C1 witness. -/
def c1Db : Db :=
  { lines := [{ lineId := 1, is_active := true, ticket_booking_enabled := true }],
    stations :=
      [{ sid := 1, lineId := 1, position := 0, is_interchange := false,
         is_active := true },
       { sid := 2, lineId := 1, position := 1, is_interchange := false,
         is_active := true },
       { sid := 3, lineId := 1, position := 2, is_interchange := false,
         is_active := true }],
    connections := [] }

/-- C1 witness: on the concrete three-station line a route exists, so the
search returns a minimal walk. -/
theorem find_shortest_path_minimal_witness :
    ∃ p, find_shortest_path c1Db 1 3 = some p ∧
      IsWalkFromTo (adjGet c1Db) 1 3 p ∧
      ∀ w, IsWalkFromTo (adjGet c1Db) 1 3 w → p.length ≤ w.length :=
  find_shortest_path_minimal c1Db 1 3 ⟨[1, 2, 3], by decide⟩

end MetroSys
